import Mathlib

/-!
Verification of the document ingestion and hybrid retrieval subsystem:
shallow embedding of the chunker (`src/documents/parsers/base.js`,
`src/documents/parser.js`), the file-signature validator
(`src/documents/fileSignature.js`), the document manager
(`src/documents/manager.js`) and the chunk search path
(`src/documents/search.js`, `/ask` handler in `src/index.js`),
together with theorems about the specified properties.

JavaScript strings are modelled as `List Char`, byte buffers as
`List Nat`, machine integers as `Int`/`Nat`.  The sliding-window chunk
loop of the source has no a-priori termination bound, so it is embedded
fuel-indexed: `none` means the fuel ran out before the loop finished.
-/

namespace AiAgent

/-- Whitespace for the purposes of JavaScript `trim` and the regex
class `\s`, restricted to the ASCII range the code base manipulates. -/
def isJsWs (c : Char) : Bool :=
  c = ' ' || c = '\t' || c = '\n' || c = '\r' || c = Char.ofNat 11 || c = Char.ofNat 12

/-- Clamp an index the way `String.prototype.slice` does: negative
indices count from the end (floored at 0), positive ones are capped at
the length. -/
def jsClamp (len : Nat) (i : Int) : Nat :=
  if i < 0 then (len + i).toNat else min i.toNat len

/-- JavaScript `text.slice(a, b)` on a list of characters. -/
def jsSlice (s : List Char) (a b : Int) : List Char :=
  (s.drop (jsClamp s.length a)).take (jsClamp s.length b - jsClamp s.length a)

/-- JavaScript `text.trim()`: strip whitespace from both ends. -/
def jsTrim (s : List Char) : List Char :=
  ((s.dropWhile isJsWs).reverse.dropWhile isJsWs).reverse

/-- JavaScript `text.lastIndexOf(c)`: the last index holding `c`, or
`-1` when `c` does not occur. -/
def jsLastIndexOf (s : List Char) (c : Char) : Int :=
  match s.reverse.findIdx? (fun x => x == c) with
  | some i => (s.length : Int) - 1 - i
  | none => -1

/-- One window's chunk, before it is appended: `text.slice(start, end)`
with `end = min(start + chunkSize, text.length)`, cut back to the last
`.` or newline when that break point lies past half the chunk size and
the window does not reach the end of the text, then trimmed.  This is
the body of the `while` loop of `chunkText` in
`src/documents/parsers/base.js` (lines 87-105) and, identically, of
`chunkText` in `src/documents/parser.js` (lines 205-220).  The float
comparison `breakPoint > chunkSize * 0.5` is rendered as
`2 * breakPoint > chunkSize`, which is equivalent on integers. -/
def chunkPiece (size : Nat) (text : List Char) (start : Int) : List Char :=
  let e : Int := min (start + (size : Int)) (text.length : Int)
  let c0 := jsSlice text start e
  let breakPoint := max (jsLastIndexOf c0 '.') (jsLastIndexOf c0 '\n')
  let c1 :=
    if e < (text.length : Int) then
      if 2 * breakPoint > (size : Int) then jsSlice c0 0 (breakPoint + 1) else c0
    else c0
  jsTrim c1

/-- Appending a produced chunk to the accumulator.  `BaseParser.chunkText`
pushes the trimmed chunk only when it is non-empty (`skipEmpty = true`);
the legacy `chunkText` of `src/documents/parser.js` pushes it
unconditionally (`skipEmpty = false`). -/
def chunkAppend (skipEmpty : Bool) (acc : List (List Char)) (piece : List Char) :
    List (List Char) :=
  if skipEmpty && piece.isEmpty then acc else acc ++ [piece]

/-- The sliding-window loop `while (start < text.length) { ...; start =
end - overlap }` shared by both chunkers, indexed by fuel: `none` means
the loop had not terminated when the fuel ran out. -/
def chunkLoop (skipEmpty : Bool) (size overlap : Nat) (text : List Char) :
    Nat → Int → List (List Char) → Option (List (List Char))
  | 0, _, _ => none
  | fuel + 1, start, acc =>
    if start < (text.length : Int) then
      chunkLoop skipEmpty size overlap text fuel
        (min (start + (size : Int)) (text.length : Int) - (overlap : Int))
        (chunkAppend skipEmpty acc (chunkPiece size text start))
    else
      some acc

namespace BaseParser

/-- The method `BaseParser.chunkText` of `src/documents/parsers/base.js`
(lines 83-110), with the instance fields `chunkSize` and `chunkOverlap`
passed explicitly (their constructor defaults are 1000 and 200). -/
def chunkText (chunkSize chunkOverlap : Nat) (text : List Char) (fuel : Nat) :
    Option (List (List Char)) :=
  chunkLoop true chunkSize chunkOverlap text fuel 0 []

end BaseParser

/-- The free function `chunkText(text, chunkSize = 1000, overlap = 200)`
of `src/documents/parser.js` (lines 201-225). -/
def chunkText (text : List Char) (chunkSize overlap : Nat) (fuel : Nat) :
    Option (List (List Char)) :=
  chunkLoop false chunkSize overlap text fuel 0 []

/-- Reconstruction operator taken from the specification's words, for
comparison with the code: concatenate the chunks in order after
removing the configured overlap from the front of every chunk but the
first. -/
def specOverlapConcat (overlap : Nat) : List (List Char) → List Char
  | [] => []
  | c :: cs => c ++ (cs.map (List.drop overlap)).flatten

/-! Supporting lemmas about the JavaScript string helpers. -/

theorem jsTrim_length_le (s : List Char) : (jsTrim s).length ≤ s.length := by
  unfold jsTrim
  calc ((s.dropWhile isJsWs).reverse.dropWhile isJsWs).reverse.length
      = ((s.dropWhile isJsWs).reverse.dropWhile isJsWs).length := List.length_reverse _
    _ ≤ (s.dropWhile isJsWs).reverse.length :=
        ((s.dropWhile isJsWs).reverse.dropWhile_sublist isJsWs).length_le
    _ = (s.dropWhile isJsWs).length := List.length_reverse _
    _ ≤ s.length := (s.dropWhile_sublist isJsWs).length_le

theorem jsSlice_length_le_self (s : List Char) (a b : Int) :
    (jsSlice s a b).length ≤ s.length := by
  unfold jsSlice
  calc ((s.drop (jsClamp s.length a)).take (jsClamp s.length b - jsClamp s.length a)).length
      ≤ (s.drop (jsClamp s.length a)).length := by
        rw [List.length_take]; exact Nat.min_le_right _ _
    _ ≤ s.length := by rw [List.length_drop]; omega

theorem dropWhile_eq_self_of_all_false {p : Char → Bool} :
    ∀ {l : List Char}, (∀ c ∈ l, p c = false) → l.dropWhile p = l
  | [], _ => rfl
  | c :: l, h => by
    rw [List.dropWhile_cons, h c (List.mem_cons_self c l)]
    simp

theorem jsTrim_of_no_ws {s : List Char} (h : ∀ c ∈ s, isJsWs c = false) :
    jsTrim s = s := by
  unfold jsTrim
  rw [dropWhile_eq_self_of_all_false h,
    dropWhile_eq_self_of_all_false (fun c hc => h c (List.mem_reverse.mp hc)),
    List.reverse_reverse]

theorem jsLastIndexOf_of_not_mem {s : List Char} {c : Char} (h : c ∉ s) :
    jsLastIndexOf s c = -1 := by
  unfold jsLastIndexOf
  have : s.reverse.findIdx? (fun x => x == c) = none := by
    rw [List.findIdx?_eq_none_iff]
    intro x hx
    have hxc : x ≠ c := by
      intro he; exact h (he ▸ List.mem_reverse.mp hx)
    simp [hxc]
  rw [this]

/-- The window slice computed at offset `start` never exceeds the
configured chunk size. -/
theorem jsSlice_window_length_le (text : List Char) (start : Int) (size : Nat)
    (h : start < (text.length : Int)) :
    (jsSlice text start (min (start + (size : Int)) (text.length : Int))).length ≤ size := by
  unfold jsSlice jsClamp
  rw [List.length_take, List.length_drop]
  rw [Int.min_def]
  split_ifs <;> omega

/-- Every chunk the loop body produces has length at most the chunk
size (whatever the overlap is): the window has at most `size`
characters, cutting at a break point only shortens it, and so does
trimming. -/
theorem chunkPiece_length_le (size : Nat) (text : List Char) (start : Int)
    (h : start < (text.length : Int)) :
    (chunkPiece size text start).length ≤ size := by
  unfold chunkPiece
  refine le_trans (jsTrim_length_le _) ?_
  have h0 := jsSlice_window_length_le text start size h
  split_ifs with h1 h2
  · exact le_trans (jsSlice_length_le_self _ _ _) h0
  · exact h0
  · exact h0

/-- If the loop reaches a window start `s` from which one iteration
returns to the very same start, it never terminates: each pass re-reads
the same final window.  Such a fixed point is reached from any
non-empty text as soon as the overlap is positive. -/
theorem chunkLoop_stuck (skipEmpty : Bool) (size overlap : Nat) (text : List Char)
    (start : Int) (h1 : start < (text.length : Int))
    (h2 : min (start + (size : Int)) (text.length : Int) - (overlap : Int) = start) :
    ∀ (fuel : Nat) (acc : List (List Char)),
      chunkLoop skipEmpty size overlap text fuel start acc = none := by
  intro fuel
  induction fuel with
  | zero => intro acc; rfl
  | succ n ih =>
    intro acc
    rw [chunkLoop, if_pos h1, h2]
    exact ih _

/-- Every chunk in a terminating run of the loop has length at most the
chunk size, provided the accumulator already satisfies the bound. -/
theorem chunkLoop_length_le (skipEmpty : Bool) (size overlap : Nat) (text : List Char) :
    ∀ (fuel : Nat) (start : Int) (acc out : List (List Char)),
      (∀ c ∈ acc, c.length ≤ size) →
      chunkLoop skipEmpty size overlap text fuel start acc = some out →
      ∀ c ∈ out, c.length ≤ size := by
  intro fuel
  induction fuel with
  | zero => intro start acc out _ hrun; exact absurd hrun (by simp [chunkLoop])
  | succ n ih =>
    intro start acc out hacc hrun
    rw [chunkLoop] at hrun
    by_cases h1 : start < (text.length : Int)
    · rw [if_pos h1] at hrun
      refine ih _ _ _ ?_ hrun
      intro c hc
      unfold chunkAppend at hc
      split_ifs at hc with he
      · exact hacc c hc
      · rcases List.mem_append.mp hc with hc1 | hc2
        · exact hacc c hc1
        · rw [List.mem_singleton.mp hc2]
          exact chunkPiece_length_le size text start h1
    · rw [if_neg h1] at hrun
      cases hrun
      exact hacc

theorem specOverlapConcat_zero (l : List (List Char)) :
    specOverlapConcat 0 l = l.flatten := by
  cases l with
  | nil => rfl
  | cons c cs =>
    have h : cs.map (List.drop 0) = cs := by
      induction cs with
      | nil => rfl
      | cons d ds ihd => simp [ihd]
    simp [specOverlapConcat, h]

theorem jsClamp_natCast (len m : Nat) : jsClamp len ((m : Nat) : Int) = min m len := by
  unfold jsClamp
  rw [if_neg (by omega)]
  have h : ((m : Nat) : Int).toNat = m := by omega
  rw [h]

/-- On a window that starts inside the text, when the text contains no
whitespace and no period, the loop body is exactly the untouched window
slice: there is no break point to cut at and trimming is the
identity. -/
theorem chunkPiece_plain (size : Nat) (text : List Char) (s : Nat)
    (hs : s < text.length) (hsize : 0 < size)
    (hchars : ∀ c ∈ text, isJsWs c = false ∧ c ≠ '.') :
    chunkPiece size text (s : Int) = (text.drop s).take (min (s + size) text.length - s) := by
  have hcast : min ((s : Int) + (size : Int)) ((text.length : Int)) =
      ((min (s + size) text.length : Nat) : Int) := by
    push_cast
    rfl
  have hclamp_s : jsClamp text.length (s : Int) = s := by
    rw [jsClamp_natCast]
    exact Nat.min_eq_left (Nat.le_of_lt hs)
  have hclamp_e : jsClamp text.length ((min (s + size) text.length : Nat) : Int)
      = min (s + size) text.length := by
    rw [jsClamp_natCast]
    exact Nat.min_eq_left (Nat.min_le_right (s + size) text.length)
  have hc0 : jsSlice text (s : Int) (min ((s : Int) + (size : Int)) ((text.length : Int)))
      = (text.drop s).take (min (s + size) text.length - s) := by
    rw [hcast]
    unfold jsSlice
    rw [hclamp_s, hclamp_e]
  have hmem : ∀ c ∈ (text.drop s).take (min (s + size) text.length - s), c ∈ text :=
    fun c hc => List.mem_of_mem_drop (List.mem_of_mem_take hc)
  have hdot : ('.' : Char) ∉ (text.drop s).take (min (s + size) text.length - s) := by
    intro hd
    exact (hchars _ (hmem _ hd)).2 rfl
  have hnl : ('\n' : Char) ∉ (text.drop s).take (min (s + size) text.length - s) := by
    intro hd
    have := (hchars _ (hmem _ hd)).1
    simp [isJsWs] at this
  have htrim : jsTrim ((text.drop s).take (min (s + size) text.length - s))
      = (text.drop s).take (min (s + size) text.length - s) :=
    jsTrim_of_no_ws (fun c hc => (hchars c (hmem c hc)).1)
  simp only [chunkPiece]
  rw [hc0, jsLastIndexOf_of_not_mem hdot, jsLastIndexOf_of_not_mem hnl, max_self]
  rw [if_neg (show ¬ ((2 : Int) * (-1) > (size : Int)) by omega), ite_self, htrim]

/-- With zero overlap and no whitespace or periods in the text, the
loop's output chunks flatten back to the original text: the invariant
is that the accumulator always flattens to the prefix consumed so
far. -/
theorem chunkLoop_flatten (skipEmpty : Bool) (size : Nat) (text : List Char)
    (hsize : 0 < size)
    (hchars : ∀ c ∈ text, isJsWs c = false ∧ c ≠ '.') :
    ∀ (fuel s : Nat) (acc out : List (List Char)),
      acc.flatten = text.take s →
      chunkLoop skipEmpty size 0 text fuel (s : Int) acc = some out →
      out.flatten = text := by
  intro fuel
  induction fuel with
  | zero => intro s acc out _ hrun; exact absurd hrun (by simp [chunkLoop])
  | succ n ih =>
    intro s acc out hacc hrun
    rw [chunkLoop] at hrun
    by_cases h1 : (s : Int) < (text.length : Int)
    · have hs : s < text.length := by exact_mod_cast h1
      rw [if_pos h1] at hrun
      have harg : min ((s : Int) + (size : Int)) ((text.length : Int)) - ((0 : Nat) : Int)
          = ((min (s + size) text.length : Nat) : Int) := by
        push_cast
        omega
      rw [harg, chunkPiece_plain size text s hs hsize hchars] at hrun
      have he1 : s + 1 ≤ min (s + size) text.length := by omega
      have hpiece_ne : ((text.drop s).take (min (s + size) text.length - s)).length ≠ 0 := by
        rw [List.length_take, List.length_drop]
        omega
      have happ : chunkAppend skipEmpty acc ((text.drop s).take (min (s + size) text.length - s))
          = acc ++ [(text.drop s).take (min (s + size) text.length - s)] := by
        unfold chunkAppend
        rw [if_neg]
        intro hb
        rcases Bool.and_eq_true_iff.mp hb with ⟨_, hemp⟩
        exact hpiece_ne (List.length_eq_zero.mpr (List.isEmpty_iff.mp hemp))
      rw [happ] at hrun
      refine ih (min (s + size) text.length) _ out ?_ hrun
      rw [List.flatten_append, hacc]
      simp only [List.flatten_cons, List.flatten_nil, List.append_nil]
      rw [← List.take_add]
      congr 1
      omega
    · rw [if_neg h1] at hrun
      cases hrun
      have hlen : text.length ≤ s := by exact_mod_cast not_lt.mp h1
      rw [hacc, List.take_of_length_le hlen]

/-- Claim C2: the specification says the chunker terminates for every
overlap smaller than the chunk size, but with the constructor-default
configuration (`chunkSize = 1000`, `chunkOverlap = 200`) both
`BaseParser.chunkText` and the legacy `chunkText` loop forever on the
two-character text `"ab"`: no amount of fuel makes the loop return.
Once the window end reaches `text.length`, the next start is
`text.length - overlap < text.length` again, forever. -/
theorem chunkText_default_config_diverges :
    ∀ fuel : Nat,
      BaseParser.chunkText 1000 200 ("ab".toList) fuel = none ∧
      chunkText ("ab".toList) 1000 200 fuel = none := by
  have key : ∀ (se : Bool) (fuel : Nat) (acc : List (List Char)),
      chunkLoop se 1000 200 ("ab".toList) fuel (-198) acc = none := by
    intro se
    exact chunkLoop_stuck se 1000 200 _ (-198) (by decide) (by decide)
  have harg : min ((0 : Int) + (1000 : Nat)) ((("ab".toList).length : Nat) : Int)
      - ((200 : Nat) : Int) = -198 := by decide
  intro fuel
  constructor
  · unfold BaseParser.chunkText
    cases fuel with
    | zero => rfl
    | succ n =>
      rw [chunkLoop, if_pos (by decide), harg]
      exact key true n _
  · unfold chunkText
    cases fuel with
    | zero => rfl
    | succ n =>
      rw [chunkLoop, if_pos (by decide), harg]
      exact key false n _

/-- Claim C9: in any terminating run of either chunker with
`overlap < size`, every produced chunk — the final one included, which
is stronger than the claim's "except possibly the final chunk" — has
length at most the configured chunk size. -/
theorem chunkText_chunk_length_le (size overlap : Nat) (text : List Char) (fuel : Nat)
    (outB outL : List (List Char)) (hso : overlap < size) :
    (BaseParser.chunkText size overlap text fuel = some outB →
      ∀ c ∈ outB, c.length ≤ size) ∧
    (chunkText text size overlap fuel = some outL →
      ∀ c ∈ outL, c.length ≤ size) := by
  constructor
  · intro hrun
    exact chunkLoop_length_le true size overlap text fuel 0 [] outB (by simp) hrun
  · intro hrun
    exact chunkLoop_length_le false size overlap text fuel 0 [] outL (by simp) hrun

/-- Witness for `chunkText_chunk_length_le` at a concrete terminating
configuration (`size = 5`, `overlap = 0`, text `"abcdefgh"`). -/
theorem chunkText_chunk_length_le_witness :
    (0 : Nat) < 5 ∧
    ∀ c ∈ [("abcde".toList), ("fgh".toList)], c.length ≤ 5 := by
  refine ⟨by decide, ?_⟩
  exact (chunkText_chunk_length_le 5 0 ("abcdefgh".toList) 3
    [("abcde".toList), ("fgh".toList)] [("abcde".toList), ("fgh".toList)]
    (by decide)).1 (by decide)

/-- Claim C1 is false as stated: on the text `" a"` with overlap `0`,
`BaseParser.chunkText` trims the chunk, so concatenating the chunks
(with the zero overlap removed) yields `"a"`, not the original text
`" a"`.  (With any positive overlap the loop does not terminate at all,
see `chunkText_default_config_diverges`.) -/
theorem chunkText_concat_counterexample :
    BaseParser.chunkText 1000 0 (" a".toList) 2 = some [("a".toList)] ∧
    specOverlapConcat 0 [("a".toList)] ≠ " a".toList := by
  constructor
  · decide
  · decide

/-- Claim C1 amended: restricted to configurations and inputs where
the loop's lossy steps cannot fire — overlap `0` (a positive overlap
never terminates), no whitespace (trimming) and no periods (break-point
cuts) — concatenating the chunks of either chunker with the configured
overlap removed reconstructs the original text. -/
theorem chunkText_concat_reconstructs (size : Nat) (text : List Char) (fuel : Nat)
    (outB outL : List (List Char)) (hsize : 0 < size)
    (hchars : ∀ c ∈ text, isJsWs c = false ∧ c ≠ '.') :
    (BaseParser.chunkText size 0 text fuel = some outB →
      specOverlapConcat 0 outB = text) ∧
    (chunkText text size 0 fuel = some outL →
      specOverlapConcat 0 outL = text) := by
  constructor
  · intro hrun
    rw [specOverlapConcat_zero]
    exact chunkLoop_flatten true size text hsize hchars fuel 0 [] outB (by simp) hrun
  · intro hrun
    rw [specOverlapConcat_zero]
    exact chunkLoop_flatten false size text hsize hchars fuel 0 [] outL (by simp) hrun

/-- Witness for `chunkText_concat_reconstructs` at `size = 5`,
text `"abcdefgh"`. -/
theorem chunkText_concat_reconstructs_witness :
    (0 : Nat) < 5 ∧
    specOverlapConcat 0 [("abcde".toList), ("fgh".toList)] = "abcdefgh".toList := by
  refine ⟨by decide, ?_⟩
  exact (chunkText_concat_reconstructs 5 ("abcdefgh".toList) 3
    [("abcde".toList), ("fgh".toList)] [("abcde".toList), ("fgh".toList)]
    (by decide) (by decide)).1 (by decide)

/-! The file-signature validator (`src/documents/fileSignature.js`). -/

/-- One magic-byte signature entry: expected bytes at a fixed offset. -/
structure FileSig where
  offset : Nat
  bytes : List Nat
deriving DecidableEq

/-- The table `FILE_SIGNATURES`, in source order (object key insertion
order, which `Object.entries` preserves). -/
def FILE_SIGNATURES : List (String × List FileSig) :=
  [ ("pdf", [⟨0, [0x25, 0x50, 0x44, 0x46]⟩]),
    ("png", [⟨0, [0x89, 0x50, 0x4E, 0x47, 0x0D, 0x0A, 0x1A, 0x0A]⟩]),
    ("jpeg", [⟨0, [0xFF, 0xD8, 0xFF, 0xE0]⟩, ⟨0, [0xFF, 0xD8, 0xFF, 0xE1]⟩,
              ⟨0, [0xFF, 0xD8, 0xFF, 0xE2]⟩, ⟨0, [0xFF, 0xD8, 0xFF, 0xDB]⟩]),
    ("gif", [⟨0, [0x47, 0x49, 0x46, 0x38, 0x37, 0x61]⟩,
             ⟨0, [0x47, 0x49, 0x46, 0x38, 0x39, 0x61]⟩]),
    ("zip", [⟨0, [0x50, 0x4B, 0x03, 0x04]⟩, ⟨0, [0x50, 0x4B, 0x05, 0x06]⟩,
             ⟨0, [0x50, 0x4B, 0x07, 0x08]⟩]),
    ("docx", [⟨0, [0x50, 0x4B, 0x03, 0x04]⟩]),
    ("xlsx", [⟨0, [0x50, 0x4B, 0x03, 0x04]⟩]),
    ("pptx", [⟨0, [0x50, 0x4B, 0x03, 0x04]⟩]),
    ("doc", [⟨0, [0xD0, 0xCF, 0x11, 0xE0, 0xA1, 0xB1, 0x1A, 0xE1]⟩]),
    ("xls", [⟨0, [0xD0, 0xCF, 0x11, 0xE0, 0xA1, 0xB1, 0x1A, 0xE1]⟩]),
    ("ppt", [⟨0, [0xD0, 0xCF, 0x11, 0xE0, 0xA1, 0xB1, 0x1A, 0xE1]⟩]) ]

/-- The table `MIME_TO_SIGNATURE`. -/
def MIME_TO_SIGNATURE : List (String × String) :=
  [ ("application/pdf", "pdf"),
    ("image/png", "png"),
    ("image/jpeg", "jpeg"),
    ("image/gif", "gif"),
    ("application/zip", "zip"),
    ("application/vnd.openxmlformats-officedocument.wordprocessingml.document", "docx"),
    ("application/vnd.openxmlformats-officedocument.spreadsheetml.sheet", "xlsx"),
    ("application/vnd.openxmlformats-officedocument.presentationml.presentation", "pptx"),
    ("application/msword", "doc"),
    ("application/vnd.ms-excel", "xls"),
    ("application/vnd.ms-powerpoint", "ppt") ]

/-- `matchesSignature(buffer, signature)`: the buffer is long enough and
carries the expected bytes at the signature's offset. -/
def matchesSignature (buffer : List Nat) (sig : FileSig) : Bool :=
  decide (sig.offset + sig.bytes.length ≤ buffer.length) &&
    sig.bytes.isPrefixOf (buffer.drop sig.offset)

/-- `detectFileType(buffer)`: `null` for buffers of fewer than 8 bytes,
else the first file type in `FILE_SIGNATURES` one of whose signatures
matches. -/
def detectFileType (buffer : List Nat) : Option String :=
  if buffer.length < 8 then none
  else
    FILE_SIGNATURES.findSome? fun p =>
      if p.2.any (matchesSignature buffer) then some p.1 else none

/-- Result record of `validateFileSignature`. -/
structure SignatureValidation where
  isValid : Bool
  detectedType : Option String
  declaredType : String
  message : String
  validatable : Bool
deriving DecidableEq

/-- `validateFileSignature(buffer, declaredMimeType)`. -/
def validateFileSignature (buffer : List Nat) (declaredMimeType : String) :
    SignatureValidation :=
  let detectedType := detectFileType buffer
  match MIME_TO_SIGNATURE.lookup declaredMimeType with
  | none =>
    ⟨true, detectedType, declaredMimeType,
      "No signature validation available for this MIME type", false⟩
  | some expectedType =>
    match detectedType with
    | none =>
      ⟨false, none, declaredMimeType,
        "Could not detect file signature. File may be corrupted or not a valid "
          ++ expectedType ++ ".", true⟩
    | some dt =>
      if (expectedType = "docx" ∨ expectedType = "xlsx" ∨ expectedType = "pptx") ∧ dt = "zip" then
        ⟨true, some "zip", declaredMimeType,
          "Office document has valid ZIP signature", true⟩
      else if dt = expectedType then
        ⟨true, some dt, declaredMimeType,
          "File signature matches declared type", true⟩
      else
        ⟨false, some dt, declaredMimeType,
          "File signature mismatch: file appears to be " ++ dt
            ++ " but declared as " ++ declaredMimeType, true⟩

/-- A list whose first four elements are known decomposes into four
conses. -/
theorem eq_cons_four_of_take_four {l : List Nat} {a b c d : Nat}
    (h : l.take 4 = [a, b, c, d]) : l = a :: b :: c :: d :: l.drop 4 := by
  match l with
  | [] => simp at h
  | [x] => simp at h
  | [x, y] => simp at h
  | [x, y, z] => simp at h
  | x :: y :: z :: w :: rest =>
    simp [List.take] at h
    obtain ⟨h1, h2, h3, h4⟩ := h
    simp [h1, h2, h3, h4]

/-- Claim C10: `detectFileType` returns `null` for every buffer shorter
than 8 bytes, even when the buffer begins with a complete known magic
sequence such as the 4-byte PDF signature. -/
theorem detectFileType_short_buffer (buffer : List Nat) (h : buffer.length < 8) :
    detectFileType buffer = none := by
  unfold detectFileType
  rw [if_pos h]

/-- Witness for `detectFileType_short_buffer`: the 4-byte buffer that is
exactly the `%PDF` magic is not detected. -/
theorem detectFileType_short_buffer_witness :
    ([0x25, 0x50, 0x44, 0x46] : List Nat).length < 8 ∧
      detectFileType [0x25, 0x50, 0x44, 0x46] = none :=
  ⟨by decide, detectFileType_short_buffer _ (by decide)⟩

/-- Claim C7 fails as stated: the buffer consisting of exactly the four
magic bytes `25 50 44 46` (`%PDF`) begins with the PDF signature, yet
`detectFileType` reports `null` rather than `pdf`, because of the
8-byte minimum-length guard. -/
theorem detectFileType_pdf_counterexample :
    ¬ detectFileType [0x25, 0x50, 0x44, 0x46] = some "pdf" := by
  decide

/-- Claim C7 amended with the 8-byte minimum the code imposes: every
buffer of at least 8 bytes whose first four bytes are `%PDF` is
detected as `pdf` regardless of the declared content type (which
`detectFileType` does not even consult), and every buffer of at least
8 bytes that begins `FF D8 FF E0` but is declared `application/pdf` is
reported invalid with detected type `jpeg`. -/
theorem signature_detection_pdf_jpeg (buffer : List Nat) (h8 : 8 ≤ buffer.length) :
    (buffer.take 4 = [0x25, 0x50, 0x44, 0x46] → detectFileType buffer = some "pdf") ∧
    (buffer.take 4 = [0xFF, 0xD8, 0xFF, 0xE0] →
      (validateFileSignature buffer "application/pdf").isValid = false ∧
      (validateFileSignature buffer "application/pdf").detectedType = some "jpeg") := by
  constructor
  · intro h4
    have hb := eq_cons_four_of_take_four h4
    unfold detectFileType
    rw [if_neg (by omega)]
    rw [hb]
    simp [FILE_SIGNATURES, matchesSignature, List.isPrefixOf]
  · intro h4
    have hb := eq_cons_four_of_take_four h4
    have hdet : detectFileType buffer = some "jpeg" := by
      unfold detectFileType
      rw [if_neg (by omega)]
      rw [hb]
      simp [FILE_SIGNATURES, matchesSignature, List.isPrefixOf]
    unfold validateFileSignature
    rw [show MIME_TO_SIGNATURE.lookup "application/pdf" = some "pdf" from rfl, hdet]
    simp

/-- Witness for `signature_detection_pdf_jpeg` on two concrete 8-byte
buffers. -/
theorem signature_detection_pdf_jpeg_witness :
    detectFileType [0x25, 0x50, 0x44, 0x46, 0x2D, 0x31, 0x2E, 0x34] = some "pdf" ∧
    (validateFileSignature [0xFF, 0xD8, 0xFF, 0xE0, 0x00, 0x10, 0x4A, 0x46]
        "application/pdf").isValid = false ∧
    (validateFileSignature [0xFF, 0xD8, 0xFF, 0xE0, 0x00, 0x10, 0x4A, 0x46]
        "application/pdf").detectedType = some "jpeg" :=
  ⟨(signature_detection_pdf_jpeg _ (by decide)).1 (by decide),
   (signature_detection_pdf_jpeg _ (by decide)).2 (by decide)⟩

/-! The relational state owned by `DocumentManager`
(`src/documents/manager.js`): the `documents`, `document_pages` and
`document_chunks` tables plus the two derived full-text index tables
(`documents_fts`, `document_chunks_fts`). -/

/-- What the `parsed_metadata` column holds once written: either the
error payload written by `processDocument`'s failure paths (with a
machine `code` and a user-facing `message`), or the parser metadata
written on success. -/
inductive PMeta where
  | errInfo (code message : String)
  | docMeta (title : String) (language : String)
deriving DecidableEq

/-- A row of `documents` (the columns the verified claims touch). -/
structure DocRow where
  id : String
  filename : List Char
  contentType : String
  category : String
  status : String
  parsedMetadata : Option PMeta
deriving DecidableEq

/-- A row of `document_pages`. -/
structure PageRow where
  docId : String
  pageNumber : Nat
  content : List Char
  metadata : String
deriving DecidableEq

/-- A row of `document_chunks`. -/
structure ChunkRow where
  docId : String
  pageNumber : Option Nat
  chunkText : List Char
  chunkIndex : Nat
deriving DecidableEq

/-- A row of the `documents_fts` full-text index. -/
structure FtsRow where
  docId : String
  filename : List Char
  content : List Char
deriving DecidableEq

/-- The database state. -/
structure DbState where
  docs : List DocRow
  pages : List PageRow
  chunks : List ChunkRow
  fts : List FtsRow
  chunkFts : List (List Char)
deriving DecidableEq

/-- A page produced by a parser (`parsedData.pages[i]`). -/
structure ParsedPage where
  pageNumber : Nat
  content : List Char
  metadata : String
deriving DecidableEq

/-- The parser output fields `processDocument` consumes. -/
structure ParsedData where
  pages : List ParsedPage
  chunks : List (List Char)
  title : String
  language : String
deriving DecidableEq

/-- Outcome of `this.parser.parse(...)` inside `processDocument`: the
call either throws a typed error (carrying `error.code` and a message)
or returns parsed data.  With the same stored blob and a deterministic
parser the outcome is a fixed value. -/
inductive ParseOutcome where
  | failure (code userMessage : String)
  | success (parsed : ParsedData)
deriving DecidableEq

/-- `UPDATE documents SET status = 'error', parsed_metadata = ? WHERE
id = ?` — the failure write of `processDocument` (manager.js lines
613-628 and 664-679). -/
def setDocError (docId code msg : String) (docs : List DocRow) : List DocRow :=
  docs.map fun d =>
    if d.id = docId then
      { d with status := "error", parsedMetadata := some (PMeta.errInfo code msg) }
    else d

/-- `UPDATE documents SET status = 'error' WHERE id = ?` — the failure
write of `uploadDocument` (manager.js lines 562-564), which touches no
other column. -/
def setDocStatusOnly (docId status : String) (docs : List DocRow) : List DocRow :=
  docs.map fun d => if d.id = docId then { d with status := status } else d

/-- The success write of `processDocument` on the `documents` row. -/
def setDocProcessed (docId : String) (parsed : ParsedData) (docs : List DocRow) :
    List DocRow :=
  docs.map fun d =>
    if d.id = docId then
      { d with status := "processed",
               parsedMetadata := some (PMeta.docMeta parsed.title parsed.language) }
    else d

/-- The page rows inserted by `processDocument`'s success path: one row
per parsed page with non-empty content, in order. -/
def insertedPages (docId : String) (parsed : ParsedData) : List PageRow :=
  (parsed.pages.filter fun p => decide (p.content ≠ [])).map fun p =>
    ⟨docId, p.pageNumber, p.content, p.metadata⟩

/-- The chunk rows inserted by `processDocument`'s success path: for
each index `i`, `chunks[i].trim()` when that is non-empty, keyed by the
original index and a `NULL` page number. -/
def insertedChunks (docId : String) (parsed : ParsedData) : List ChunkRow :=
  parsed.chunks.enum.filterMap fun ic =>
    if jsTrim ic.2 ≠ [] then some ⟨docId, none, jsTrim ic.2, ic.1⟩ else none

/-- `DocumentManager.processDocument` (manager.js lines 579-749), as a
transition on the database state, parameterised by the parse outcome
for the document's stored blob.  The returned flag is `true` when the
call returns normally and `false` when it throws.  The steps, in source
order: look the document up (throw when absent); parse; on parse
failure durably mark the document `error` with the error payload and
rethrow; otherwise delete all page and chunk rows of the document,
keep only parsed pages with non-empty content, mark the document
`error` with a `NO_CONTENT` payload and throw when none remain, else
insert the new page and chunk rows and update the document row to
`processed`. -/
def processSuccess (docId : String) (parsed : ParsedData) (s : DbState) :
    DbState × Bool :=
  if (parsed.pages.filter fun p => decide (p.content ≠ [])) = [] then
    ({ s with
        pages := s.pages.filter fun p => decide (p.docId ≠ docId),
        chunks := s.chunks.filter fun c => decide (c.docId ≠ docId),
        docs := setDocError docId "NO_CONTENT"
          "No extractable text content found in document" s.docs }, false)
  else
    ({ s with
        pages := (s.pages.filter fun p => decide (p.docId ≠ docId))
          ++ insertedPages docId parsed,
        chunks := (s.chunks.filter fun c => decide (c.docId ≠ docId))
          ++ insertedChunks docId parsed,
        docs := setDocProcessed docId parsed s.docs }, true)

def processDocument (docId : String) (outcome : ParseOutcome) (s : DbState) :
    DbState × Bool :=
  if (s.docs.find? fun d => decide (d.id = docId)).isSome then
    match outcome with
    | ParseOutcome.failure code msg =>
      ({ s with docs := setDocError docId code msg s.docs }, false)
    | ParseOutcome.success parsed => processSuccess docId parsed s
  else (s, false)

/-! Lemmas for reprocessing idempotence. -/

theorem filter_idem {α : Type} (p : α → Bool) (l : List α) :
    (l.filter p).filter p = l.filter p := by
  simp [List.filter_filter]

theorem insertedPages_filter_ne (docId : String) (parsed : ParsedData) :
    (insertedPages docId parsed).filter (fun p => decide (p.docId ≠ docId)) = [] := by
  rw [List.filter_eq_nil]
  intro a ha
  unfold insertedPages at ha
  obtain ⟨p, _, rfl⟩ := List.mem_map.mp ha
  simp

theorem insertedChunks_filter_ne (docId : String) (parsed : ParsedData) :
    (insertedChunks docId parsed).filter (fun c => decide (c.docId ≠ docId)) = [] := by
  rw [List.filter_eq_nil]
  intro a ha
  unfold insertedChunks at ha
  obtain ⟨ic, _, hsome⟩ := List.mem_filterMap.mp ha
  split_ifs at hsome
  cases hsome
  simp

/-- A map that leaves each row's `id` unchanged leaves the success of a
lookup by `id` unchanged. -/
theorem find?_isSome_map_id (docs : List DocRow) (docId : String)
    (g : DocRow → DocRow) (hg : ∀ d, (g d).id = d.id) :
    ((docs.map g).find? (fun d => decide (d.id = docId))).isSome
      = (docs.find? (fun d => decide (d.id = docId))).isSome := by
  induction docs with
  | nil => rfl
  | cons d ds ih =>
    simp only [List.map_cons, List.find?]
    rw [hg d]
    by_cases h : d.id = docId
    · rw [decide_eq_true h]
      rfl
    · rw [decide_eq_false h]
      exact ih

theorem setDocError_find?_isSome (docs : List DocRow) (docId code msg lookupId : String) :
    ((setDocError docId code msg docs).find? (fun d => decide (d.id = lookupId))).isSome
      = (docs.find? (fun d => decide (d.id = lookupId))).isSome := by
  unfold setDocError
  exact find?_isSome_map_id docs lookupId _ (fun d => by split_ifs <;> rfl)

theorem setDocProcessed_find?_isSome (docs : List DocRow) (docId lookupId : String)
    (parsed : ParsedData) :
    ((setDocProcessed docId parsed docs).find? (fun d => decide (d.id = lookupId))).isSome
      = (docs.find? (fun d => decide (d.id = lookupId))).isSome := by
  unfold setDocProcessed
  exact find?_isSome_map_id docs lookupId _ (fun d => by split_ifs <;> rfl)

/-- Claim C3: with the same stored blob and a deterministic parser —
i.e. the same parse outcome both times — running `processDocument`
twice on the same document id leaves exactly the same `document_pages`
and `document_chunks` rows as running it once: the delete-then-insert
replacement never duplicates or accumulates rows. -/
theorem processDocument_reprocess_idempotent (docId : String) (outcome : ParseOutcome)
    (s : DbState) :
    (processDocument docId outcome (processDocument docId outcome s).1).1.pages
      = (processDocument docId outcome s).1.pages ∧
    (processDocument docId outcome (processDocument docId outcome s).1).1.chunks
      = (processDocument docId outcome s).1.chunks := by
  by_cases hs : (s.docs.find? fun d => decide (d.id = docId)).isSome = true
  · cases outcome with
    | failure code msg =>
      have e1 : processDocument docId (ParseOutcome.failure code msg) s
          = ({ s with docs := setDocError docId code msg s.docs }, false) := by
        unfold processDocument
        rw [if_pos hs]
      have hs2 : (((setDocError docId code msg s.docs)).find?
          fun d => decide (d.id = docId)).isSome = true := by
        rw [setDocError_find?_isSome]
        exact hs
      rw [e1]
      unfold processDocument
      rw [if_pos hs2]
      exact ⟨rfl, rfl⟩
    | success parsed =>
      have e1 : processDocument docId (ParseOutcome.success parsed) s
          = processSuccess docId parsed s := by
        unfold processDocument
        rw [if_pos hs]
      by_cases hvp : (parsed.pages.filter fun p => decide (p.content ≠ [])) = []
      · have e2 : processSuccess docId parsed s
            = ({ s with
                  pages := s.pages.filter fun p => decide (p.docId ≠ docId),
                  chunks := s.chunks.filter fun c => decide (c.docId ≠ docId),
                  docs := setDocError docId "NO_CONTENT"
                    "No extractable text content found in document" s.docs }, false) := by
          unfold processSuccess
          rw [if_pos hvp]
        have hs2 : (((setDocError docId "NO_CONTENT"
            "No extractable text content found in document" s.docs)).find?
            fun d => decide (d.id = docId)).isSome = true := by
          rw [setDocError_find?_isSome]
          exact hs
        rw [e1, e2]
        have e3 : processDocument docId (ParseOutcome.success parsed)
            ({ s with
                pages := s.pages.filter fun p => decide (p.docId ≠ docId),
                chunks := s.chunks.filter fun c => decide (c.docId ≠ docId),
                docs := setDocError docId "NO_CONTENT"
                  "No extractable text content found in document" s.docs })
            = processSuccess docId parsed
              ({ s with
                  pages := s.pages.filter fun p => decide (p.docId ≠ docId),
                  chunks := s.chunks.filter fun c => decide (c.docId ≠ docId),
                  docs := setDocError docId "NO_CONTENT"
                    "No extractable text content found in document" s.docs }) := by
          unfold processDocument
          rw [if_pos hs2]
        rw [e3]
        unfold processSuccess
        rw [if_pos hvp]
        exact ⟨filter_idem _ _, filter_idem _ _⟩
      · have e2 : processSuccess docId parsed s
            = ({ s with
                  pages := (s.pages.filter fun p => decide (p.docId ≠ docId))
                    ++ insertedPages docId parsed,
                  chunks := (s.chunks.filter fun c => decide (c.docId ≠ docId))
                    ++ insertedChunks docId parsed,
                  docs := setDocProcessed docId parsed s.docs }, true) := by
          unfold processSuccess
          rw [if_neg hvp]
        have hs2 : (((setDocProcessed docId parsed s.docs)).find?
            fun d => decide (d.id = docId)).isSome = true := by
          rw [setDocProcessed_find?_isSome]
          exact hs
        rw [e1, e2]
        have e3 : processDocument docId (ParseOutcome.success parsed)
            ({ s with
                pages := (s.pages.filter fun p => decide (p.docId ≠ docId))
                  ++ insertedPages docId parsed,
                chunks := (s.chunks.filter fun c => decide (c.docId ≠ docId))
                  ++ insertedChunks docId parsed,
                docs := setDocProcessed docId parsed s.docs })
            = processSuccess docId parsed
              ({ s with
                  pages := (s.pages.filter fun p => decide (p.docId ≠ docId))
                    ++ insertedPages docId parsed,
                  chunks := (s.chunks.filter fun c => decide (c.docId ≠ docId))
                    ++ insertedChunks docId parsed,
                  docs := setDocProcessed docId parsed s.docs }) := by
          unfold processDocument
          rw [if_pos hs2]
        rw [e3]
        unfold processSuccess
        rw [if_neg hvp]
        constructor
        · show (((s.pages.filter fun p => decide (p.docId ≠ docId))
              ++ insertedPages docId parsed).filter fun p => decide (p.docId ≠ docId))
              ++ insertedPages docId parsed
            = (s.pages.filter fun p => decide (p.docId ≠ docId)) ++ insertedPages docId parsed
          rw [List.filter_append, filter_idem, insertedPages_filter_ne, List.append_nil]
        · show (((s.chunks.filter fun c => decide (c.docId ≠ docId))
              ++ insertedChunks docId parsed).filter fun c => decide (c.docId ≠ docId))
              ++ insertedChunks docId parsed
            = (s.chunks.filter fun c => decide (c.docId ≠ docId)) ++ insertedChunks docId parsed
          rw [List.filter_append, filter_idem, insertedChunks_filter_ne, List.append_nil]
  · have e1 : processDocument docId outcome s = (s, false) := by
      unfold processDocument
      rw [if_neg hs]
    rw [e1]
    rw [e1]
    exact ⟨rfl, rfl⟩

/-! The upload path (`DocumentManager.uploadDocument`, manager.js lines
441-571). -/

/-- Blob-store effects issued during an upload. -/
inductive R2Event where
  | put (key : String)
  | del (key : String)
deriving DecidableEq

/-- Filename sanitisation (manager.js lines 509-512): replace bytes
outside printable ASCII by an underscore, remove single and double
quotes, trim. -/
def cleanFilename (name : List Char) : List Char :=
  jsTrim
    (((name.map fun c =>
        if 0x20 ≤ c.toNat ∧ c.toNat ≤ 0x7E then c else Char.ofNat 0x5F).filter
      fun c => decide (c ≠ Char.ofNat 39 ∧ c ≠ Char.ofNat 34)))

/-- Upload metadata as passed by the caller; `filename` is `none` when
the caller supplied no filename. -/
structure UploadMeta where
  filename : Option (List Char)
  contentType : String
  category : String
deriving DecidableEq

/-- The `catch` block of `uploadDocument` (manager.js lines 550-570):
best-effort delete of the blob key, then
`UPDATE documents SET status = 'error' WHERE id = ?` (a no-op when the
row was never inserted), then rethrow. -/
def uploadFail (s : DbState) (docId : String) (events : List R2Event) :
    DbState × List R2Event × Bool :=
  ({ s with docs := setDocStatusOnly docId "error" s.docs },
    events ++ [R2Event.del ("documents/" ++ docId)], false)

/-- `DocumentManager.uploadDocument` as a state transition with an
explicit blob-effect trace and a success flag.  The checks run in
source order: file presence, filename presence, empty file, 50 MB
cap, signature validation, unsupported detected binary type — all
before the `r2.put`.  After the put, the document row is inserted in
status `uploaded` with `parsed_metadata` `NULL`, then the placeholder
page; `pageInsertFails` injects an external database failure at that
last insert, which lands in the `catch` block. -/
def uploadDocument (s : DbState) (docId : String) (filePresent : Bool)
    (buf : List Nat) (meta : UploadMeta) (pageInsertFails : Bool) :
    DbState × List R2Event × Bool :=
  if filePresent = false then uploadFail s docId []
  else if meta.filename = none then uploadFail s docId []
  else if buf.length = 0 then uploadFail s docId []
  else if 50 * 1024 * 1024 < buf.length then uploadFail s docId []
  else if (validateFileSignature buf meta.contentType).isValid = false
      ∧ (validateFileSignature buf meta.contentType).validatable = true then
    uploadFail s docId []
  else if ¬ (detectFileType buf = none ∨ detectFileType buf = some "pdf") then
    uploadFail s docId []
  else
    match meta.filename with
    | none => uploadFail s docId []
    | some name =>
      let newDoc : DocRow :=
        { id := docId, filename := cleanFilename name,
          contentType := if meta.contentType = "" then "application/pdf" else meta.contentType,
          category := if meta.category = "" then "general" else meta.category,
          status := "uploaded", parsedMetadata := none }
      if pageInsertFails then
        ({ s with docs := setDocStatusOnly docId "error" (s.docs ++ [newDoc]) },
          [R2Event.put ("documents/" ++ docId), R2Event.del ("documents/" ++ docId)],
          false)
      else
        ({ s with
            docs := s.docs ++ [newDoc],
            pages := s.pages ++ [⟨docId, 1,
              ("Document: ".toList ++ name ++ " (text extraction pending)".toList), ""⟩] },
          [R2Event.put ("documents/" ++ docId)], true)

/-- Claim C8: uploading a zero-byte file is rejected before any blob
write: the call throws, and the only blob-store effect in the trace is
the best-effort cleanup delete of the `catch` block — no `put` is ever
issued, so no blob object for the key is created. -/
theorem uploadDocument_empty_file_no_put (s : DbState) (docId : String)
    (meta : UploadMeta) (pageInsertFails : Bool) :
    (uploadDocument s docId true [] meta pageInsertFails).2.1
        = [R2Event.del ("documents/" ++ docId)] ∧
    (uploadDocument s docId true [] meta pageInsertFails).2.2 = false := by
  unfold uploadDocument uploadFail
  by_cases hf : meta.filename = none
  · simp [hf]
  · simp [hf]

/-- Claim C4 fails as stated: the failure path of `uploadDocument`
sets `status = 'error'` without writing any `parsed_metadata` payload.
Concretely, uploading a valid text file into an empty database with the
placeholder-page insert failing leaves exactly one document row whose
status is `error` and whose `parsedMetadata` is `NULL`. -/
theorem uploadDocument_error_without_metadata :
    ((uploadDocument ⟨[], [], [], [], []⟩ "doc_1" true
        [0x68, 0x65, 0x6C, 0x6C, 0x6F, 0x20, 0x64, 0x6F, 0x63]
        ⟨some ("m.txt".toList), "text/plain", "general"⟩ true).1.docs.map
      fun d => (d.status, d.parsedMetadata)) = [("error", none)] := by
  decide

/-- The database invariant of the claim: an `error` document carries an
error code and message in `parsed_metadata`, and a `processed` document
has at least one page with non-empty content. -/
def dbInvariant (s : DbState) : Prop :=
  ∀ d ∈ s.docs,
    (d.status = "error" → ∃ code msg, d.parsedMetadata = some (PMeta.errInfo code msg)) ∧
    (d.status = "processed" → ∃ p ∈ s.pages, p.docId = d.id ∧ p.content ≠ [])

/-- Claim C4 amended: `processDocument` — whose failure paths always
write a structured error payload, and whose success path inserts at
least one non-empty page before marking the document `processed` —
preserves the invariant; the amendment drops `uploadDocument`'s failure
path, which violates it (see `uploadDocument_error_without_metadata`). -/
theorem processDocument_preserves_dbInvariant (docId : String) (outcome : ParseOutcome)
    (s : DbState) (hinv : dbInvariant s) :
    dbInvariant (processDocument docId outcome s).1 := by
  by_cases hs : (s.docs.find? fun d => decide (d.id = docId)).isSome = true
  · cases outcome with
    | failure code msg =>
      have e1 : processDocument docId (ParseOutcome.failure code msg) s
          = ({ s with docs := setDocError docId code msg s.docs }, false) := by
        unfold processDocument
        rw [if_pos hs]
      rw [e1]
      intro d' hd'
      obtain ⟨d, hd, heq⟩ := List.mem_map.mp hd'
      by_cases hid : d.id = docId
      · rw [if_pos hid] at heq
        subst heq
        refine ⟨fun _ => ⟨code, msg, rfl⟩, fun hp => ?_⟩
        exact absurd hp (by simp)
      · rw [if_neg hid] at heq
        subst heq
        exact hinv d hd
    | success parsed =>
      have e1 : processDocument docId (ParseOutcome.success parsed) s
          = processSuccess docId parsed s := by
        unfold processDocument
        rw [if_pos hs]
      rw [e1]
      by_cases hvp : (parsed.pages.filter fun p => decide (p.content ≠ [])) = []
      · have e2 : processSuccess docId parsed s
            = ({ s with
                  pages := s.pages.filter fun p => decide (p.docId ≠ docId),
                  chunks := s.chunks.filter fun c => decide (c.docId ≠ docId),
                  docs := setDocError docId "NO_CONTENT"
                    "No extractable text content found in document" s.docs }, false) := by
          unfold processSuccess
          rw [if_pos hvp]
        rw [e2]
        intro d' hd'
        obtain ⟨d, hd, heq⟩ := List.mem_map.mp hd'
        by_cases hid : d.id = docId
        · rw [if_pos hid] at heq
          subst heq
          refine ⟨fun _ => ⟨"NO_CONTENT", "No extractable text content found in document", rfl⟩,
            fun hp => ?_⟩
          exact absurd hp (by simp)
        · rw [if_neg hid] at heq
          subst heq
          refine ⟨(hinv d hd).1, fun hp => ?_⟩
          obtain ⟨p, hpmem, hpid, hpc⟩ := (hinv d hd).2 hp
          refine ⟨p, ?_, hpid, hpc⟩
          exact List.mem_filter.mpr ⟨hpmem, by simp [hpid, hid]⟩
      · have e2 : processSuccess docId parsed s
            = ({ s with
                  pages := (s.pages.filter fun p => decide (p.docId ≠ docId))
                    ++ insertedPages docId parsed,
                  chunks := (s.chunks.filter fun c => decide (c.docId ≠ docId))
                    ++ insertedChunks docId parsed,
                  docs := setDocProcessed docId parsed s.docs }, true) := by
          unfold processSuccess
          rw [if_neg hvp]
        rw [e2]
        intro d' hd'
        obtain ⟨d, hd, heq⟩ := List.mem_map.mp hd'
        by_cases hid : d.id = docId
        · rw [if_pos hid] at heq
          subst heq
          refine ⟨fun he => absurd he (by simp), fun _ => ?_⟩
          obtain ⟨p0, hp0⟩ := List.exists_mem_of_ne_nil _ hvp
          have hp0c : decide (p0.content ≠ []) = true := (List.mem_filter.mp hp0).2
          refine ⟨⟨docId, p0.pageNumber, p0.content, p0.metadata⟩, ?_, by simp [hid], ?_⟩
          · refine List.mem_append_right _ ?_
            unfold insertedPages
            exact List.mem_map.mpr ⟨p0, hp0, rfl⟩
          · exact of_decide_eq_true hp0c
        · rw [if_neg hid] at heq
          subst heq
          refine ⟨(hinv d hd).1, fun hp => ?_⟩
          obtain ⟨p, hpmem, hpid, hpc⟩ := (hinv d hd).2 hp
          refine ⟨p, ?_, hpid, hpc⟩
          refine List.mem_append_left _ ?_
          exact List.mem_filter.mpr ⟨hpmem, by simp [hpid, hid]⟩
  · have e1 : processDocument docId outcome s = (s, false) := by
      unfold processDocument
      rw [if_neg hs]
    rw [e1]
    exact hinv

/-- Witness for `processDocument_preserves_dbInvariant` on the empty
database and a failing parse. -/
theorem processDocument_preserves_dbInvariant_witness :
    dbInvariant ⟨[], [], [], [], []⟩ ∧
    dbInvariant (processDocument "d1"
      (ParseOutcome.failure "PARSE_ERROR" "boom") ⟨[], [], [], [], []⟩).1 := by
  have h0 : dbInvariant ⟨[], [], [], [], []⟩ := by
    intro d hd
    simp at hd
  exact ⟨h0, processDocument_preserves_dbInvariant _ _ _ h0⟩

/-! The lexical-index maintenance operations
(`DocumentManager.rebuildFTSIndex`, manager.js lines 290-345, and
`DocumentManager.checkFTSHealth`, lines 350-402). -/

/-- `rebuildFTSIndex`: clear both FTS tables, re-insert one row per
`document_pages` row joined with its `documents` row (an inner join —
a page without a matching document row is skipped), and one row per
`document_chunks` row. -/
def rebuildFTSIndex (s : DbState) : DbState :=
  { s with
    fts := s.pages.filterMap fun p =>
      (s.docs.find? fun d => decide (d.id = p.docId)).map fun d =>
        ⟨p.docId, d.filename, p.content⟩,
    chunkFts := s.chunks.map fun c => c.chunkText }

/-- Result record of `checkFTSHealth` (the FTS tables are assumed to
exist, as `rebuildFTSIndex` creates them first). -/
structure FTSHealth where
  healthy : Bool
  ftsCount : Nat
  pagesCount : Nat
  chunkFtsCount : Nat
  chunkCount : Nat
deriving DecidableEq

/-- `checkFTSHealth`: counts both index tables and both source tables;
`healthy` holds exactly when the page-index count equals the page
count. -/
def checkFTSHealth (s : DbState) : FTSHealth :=
  { healthy := s.fts.length == s.pages.length
  , ftsCount := s.fts.length
  , pagesCount := s.pages.length
  , chunkFtsCount := s.chunkFts.length
  , chunkCount := s.chunks.length }

theorem length_filterMap_of_isSome {α β : Type} (f : α → Option β) :
    ∀ (l : List α), (∀ a ∈ l, (f a).isSome = true) → (l.filterMap f).length = l.length
  | [], _ => rfl
  | a :: l, h => by
    obtain ⟨b, hb⟩ := Option.isSome_iff_exists.mp (h a (List.mem_cons_self a l))
    rw [List.filterMap_cons, hb]
    simp only [List.length_cons]
    rw [length_filterMap_of_isSome f l (fun x hx => h x (List.mem_cons.mpr (Or.inr hx)))]

/-- Claim C6: the health check reports healthy exactly when the number
of index entries equals the number of source `document_pages` rows, and
from any starting state whose pages all reference an existing document
row (the foreign-key constraint declared by the schema), a full rebuild
restores a healthy index with matching counts. -/
theorem rebuildFTSIndex_restores_health (s : DbState)
    (hfk : ∀ p ∈ s.pages, ∃ d ∈ s.docs, d.id = p.docId) :
    (checkFTSHealth (rebuildFTSIndex s)).healthy = true ∧
    (checkFTSHealth (rebuildFTSIndex s)).ftsCount = (checkFTSHealth (rebuildFTSIndex s)).pagesCount ∧
    (∀ t : DbState, (checkFTSHealth t).healthy = true ↔ t.fts.length = t.pages.length) := by
  have hlen : (rebuildFTSIndex s).fts.length = s.pages.length := by
    unfold rebuildFTSIndex
    refine length_filterMap_of_isSome _ s.pages fun p hp => ?_
    obtain ⟨d, hd, hid⟩ := hfk p hp
    have hfind : (s.docs.find? fun d => decide (d.id = p.docId)).isSome = true := by
      rw [List.find?_isSome]
      exact ⟨d, hd, decide_eq_true hid⟩
    obtain ⟨d0, hd0⟩ := Option.isSome_iff_exists.mp hfind
    rw [hd0]
    rfl
  have hpages : (rebuildFTSIndex s).pages = s.pages := rfl
  refine ⟨?_, ?_, ?_⟩
  · show ((rebuildFTSIndex s).fts.length == (rebuildFTSIndex s).pages.length) = true
    rw [hpages, hlen]
    exact beq_iff_eq.mpr rfl
  · show (rebuildFTSIndex s).fts.length = (rebuildFTSIndex s).pages.length
    rw [hpages, hlen]
  · intro t
    show (t.fts.length == t.pages.length) = true ↔ t.fts.length = t.pages.length
    exact beq_iff_eq

/-- Witness for `rebuildFTSIndex_restores_health` on a small state with
a stale index: one processed document, one page, and an FTS table that
diverged (two entries). -/
theorem rebuildFTSIndex_restores_health_witness :
    (∀ p ∈ (⟨[⟨"d1", ("m.pdf".toList), "application/pdf", "general", "processed", none⟩],
        [⟨"d1", 1, ("hi".toList), ""⟩],
        [], [⟨"zz", [], []⟩, ⟨"yy", [], []⟩], []⟩ : DbState).pages,
      ∃ d ∈ (⟨[⟨"d1", ("m.pdf".toList), "application/pdf", "general", "processed", none⟩],
        [⟨"d1", 1, ("hi".toList), ""⟩],
        [], [⟨"zz", [], []⟩, ⟨"yy", [], []⟩], []⟩ : DbState).docs, d.id = p.docId) ∧
    (checkFTSHealth (rebuildFTSIndex
      (⟨[⟨"d1", ("m.pdf".toList), "application/pdf", "general", "processed", none⟩],
        [⟨"d1", 1, ("hi".toList), ""⟩],
        [], [⟨"zz", [], []⟩, ⟨"yy", [], []⟩], []⟩ : DbState))).healthy = true := by
  have hfk : ∀ p ∈ (⟨[⟨"d1", ("m.pdf".toList), "application/pdf", "general", "processed", none⟩],
      [⟨"d1", 1, ("hi".toList), ""⟩],
      [], [⟨"zz", [], []⟩, ⟨"yy", [], []⟩], []⟩ : DbState).pages,
      ∃ d ∈ (⟨[⟨"d1", ("m.pdf".toList), "application/pdf", "general", "processed", none⟩],
        [⟨"d1", 1, ("hi".toList), ""⟩],
        [], [⟨"zz", [], []⟩, ⟨"yy", [], []⟩], []⟩ : DbState).docs, d.id = p.docId := by
    decide
  exact ⟨hfk, (rebuildFTSIndex_restores_health _ hfk).1⟩

/-! The retrieval path: `extractKeywords` / `searchChunksSimple` /
`searchChunksVector` of `src/documents/search.js` and the `/ask`
handler of `src/index.js` (lines 1269-1282). -/

/-- ASCII lower-casing, as performed both by JavaScript
`toLowerCase` and by SQLite `LOWER` on the ASCII text this system
stores. -/
def jsToLower (c : Char) : Char :=
  if 0x41 ≤ c.toNat ∧ c.toNat ≤ 0x5A then Char.ofNat (c.toNat + 32) else c

/-- Lower-case an entire string. -/
def lowerStr (s : List Char) : List Char := s.map jsToLower

/-- The character class `[a-z0-9]` of the keyword-cleaning regex. -/
def isLowerAlnum (c : Char) : Bool :=
  (decide (0x61 ≤ c.toNat) && decide (c.toNat ≤ 0x7A)) ||
    (decide (0x30 ≤ c.toNat) && decide (c.toNat ≤ 0x39))

/-- The `STOP_WORDS` set of `search.js`. -/
def STOP_WORDS : List (List Char) :=
  (["what", "is", "the", "for", "and", "or", "a", "an", "to", "of", "in", "on", "at",
    "from", "does", "do", "be", "are", "am", "i", "you", "we", "they", "it", "this",
    "that", "these", "those", "tell", "me", "about", "please", "maximum", "minimum",
    "length"].map String.toList)

/-- `extractKeywords(question, maxKeywords)`: lower-case, replace every
character outside `[a-z0-9\s]` with a space, split on whitespace runs,
drop stop words and words shorter than 3 characters, de-duplicate in
order, cap at `maxKeywords`; when nothing survives, fall back to the
whole cleaned string trimmed (dropped if empty). -/
def extractKeywords (question : List Char) (maxKeywords : Nat) : List (List Char) :=
  let cleaned := (lowerStr question).map fun c => if isLowerAlnum c || isJsWs c then c else ' '
  let parts := (cleaned.splitOnP isJsWs).filter fun w => decide (w ≠ [])
  let keywords := parts.foldl (fun ks w =>
    if STOP_WORDS.contains w then ks
    else if w.length < 3 then ks
    else if ks.contains w then ks
    else ks ++ [w]) []
  if keywords = [] then [jsTrim cleaned].filter fun w => decide (w ≠ [])
  else keywords.take maxKeywords

/-- Substring containment: `INSTR(hay, needle) > 0`. -/
def containsSub (hay needle : List Char) : Bool :=
  hay.tails.any fun t => needle.isPrefixOf t

/-- One retrieval result, as returned by both search functions. -/
structure RetrievedChunk where
  text : List Char
  documentId : String
  pageNumber : Option Nat
  chunkIndex : Nat
  filename : Option (List Char)
  category : Option String
deriving DecidableEq

/-- The inner join `document_chunks JOIN documents ON d.id =
dc.document_id` of `searchChunksSimple`. -/
def joinChunkRows (s : DbState) : List (ChunkRow × DocRow) :=
  s.chunks.filterMap fun c =>
    (s.docs.find? fun d => decide (d.id = c.docId)).map fun d => (c, d)

/-- `searchChunksSimple(env, question, limit)`: extract keywords,
return no results when none, else all joined chunk rows whose
lower-cased text contains any keyword, capped at `limit`. -/
def searchChunksSimple (s : DbState) (question : List Char) (limit : Nat) :
    List RetrievedChunk :=
  let keywords := extractKeywords question 5
  if keywords = [] then []
  else
    (((joinChunkRows s).filter fun r =>
        keywords.any fun kw => containsSub (lowerStr r.1.chunkText) kw).take limit).map
      fun r => ⟨r.1.chunkText, r.1.docId, r.1.pageNumber, r.1.chunkIndex,
        some r.2.filename, some r.2.category⟩

/-- The retrieval logic of the `/ask` handler: when a vector index is
configured (`env.DOC_INDEX`), call `searchChunksVector` first — its
behaviour on the external index is a parameter, either a raised error
or a result list — and fall back to `searchChunksSimple` both when the
vector call throws (the `catch`) and when it returns no chunks. -/
def askRetrieve (docIndexConfigured : Bool)
    (vectorOutcome : Except Unit (List RetrievedChunk)) (s : DbState)
    (question : List Char) : List RetrievedChunk :=
  if docIndexConfigured then
    match vectorOutcome with
    | Except.error _ => searchChunksSimple s question 8
    | Except.ok cs => if cs = [] then searchChunksSimple s question 8 else cs
  else searchChunksSimple s question 8

/-- Claim C5: whenever the vector index is unconfigured, or the vector
search raises, or it returns zero results, the `/ask` retrieval equals
the lexical keyword search; and any stored chunk row (joined with its
document) whose lower-cased text contains one of the query's extracted
keywords guarantees the retrieval returns a non-empty result list. -/
theorem askRetrieve_lexical_fallback (cfg : Bool)
    (vo : Except Unit (List RetrievedChunk)) (s : DbState) (q : List Char)
    (h : cfg = false ∨ vo = Except.error () ∨ vo = Except.ok []) :
    askRetrieve cfg vo s q = searchChunksSimple s q 8 ∧
    (∀ r ∈ joinChunkRows s,
      ((extractKeywords q 5).any fun kw => containsSub (lowerStr r.1.chunkText) kw) = true →
      askRetrieve cfg vo s q ≠ []) := by
  have e : askRetrieve cfg vo s q = searchChunksSimple s q 8 := by
    rcases h with h | h | h
    · subst h
      simp [askRetrieve]
    · subst h
      cases cfg <;> simp [askRetrieve]
    · subst h
      cases cfg <;> simp [askRetrieve]
  refine ⟨e, ?_⟩
  intro r hr hmatch
  rw [e]
  have hkw : extractKeywords q 5 ≠ [] := by
    intro h0
    rw [h0] at hmatch
    simp at hmatch
  unfold searchChunksSimple
  rw [if_neg hkw]
  intro hnil
  rw [List.map_eq_nil_iff] at hnil
  have hrf : r ∈ (joinChunkRows s).filter fun r0 =>
      (extractKeywords q 5).any fun kw => containsSub (lowerStr r0.1.chunkText) kw :=
    List.mem_filter.mpr ⟨hr, hmatch⟩
  have hne : ((joinChunkRows s).filter fun r0 =>
      (extractKeywords q 5).any fun kw => containsSub (lowerStr r0.1.chunkText) kw) ≠ [] :=
    List.ne_nil_of_mem hrf
  rcases List.take_eq_nil_iff.mp hnil with h8 | hfe
  · exact absurd h8 (by decide)
  · exact hne hfe

/-- Witness for `askRetrieve_lexical_fallback`: a configured vector
index that returns zero matches, one stored chunk containing "pressure
relief valve", and the query "what causes low pressure". -/
theorem askRetrieve_lexical_fallback_witness :
    ((true : Bool) = false ∨
      (Except.ok [] : Except Unit (List RetrievedChunk)) = Except.error () ∨
      (Except.ok [] : Except Unit (List RetrievedChunk)) = Except.ok []) ∧
    askRetrieve true (Except.ok [])
      (⟨[⟨"d1", ("manual.pdf".toList), "application/pdf", "general", "processed", none⟩],
        [], [⟨"d1", none, ("Check the pressure relief valve daily".toList), 0⟩], [], []⟩ : DbState)
      ("what causes low pressure".toList) ≠ [] := by
  refine ⟨Or.inr (Or.inr rfl), ?_⟩
  refine (askRetrieve_lexical_fallback true (Except.ok []) _ _ (Or.inr (Or.inr rfl))).2
    (⟨⟨"d1", none, ("Check the pressure relief valve daily".toList), 0⟩,
      ⟨"d1", ("manual.pdf".toList), "application/pdf", "general", "processed", none⟩⟩)
    (by decide) (by decide)

end AiAgent
